import Mathlib

/-!
Verification development for the planroom-genius repository.

The repository ships a frontend (`src/unnamed/part_002`, the takeoff UI
script; `src/unnamed/part_000`, the leads dashboard React component),
shell tooling and documentation.  The Python pipeline modules described
by the documentation (`modules/visualizer.py` with IoU/NMS,
`modules/roboflow_detector.py` with the tile cache,
`modules/pdf_processor.py`) are not present in the source tree, so the
components they implement (Deduplicator, DetectionCache,
DetectionDispatcher remapping, JobOrchestrator) are modelled from the
specification, as marked on each definition.  Everything else is
embedded directly from the JavaScript sources.

Numbers are modelled as exact rationals (ℚ); JavaScript string
comparison (`localeCompare`) is modelled by the lexicographic linear
order on `String`.
-/

namespace PlanroomGenius

/-- A single detection: class label, bounding box `(x, y, w, h)` and
confidence, as delivered by the detection service and remapped to
page-global coordinates (spec §3, DetectionResult / PageDetectionSet). -/
structure Detection where
  cls : String
  x : ℚ
  y : ℚ
  w : ℚ
  h : ℚ
  conf : ℚ
deriving DecidableEq, Repr

/-- Modelled from the spec (§4.5): the deterministic sort key for the
Deduplicator — confidence descending first, then a fixed content-based
tie-break (box origin, then size, then class label) so that the sorted
order is reproducible regardless of dispatch completion order. -/
def detKey (d : Detection) : ℚ ×ₗ (ℚ ×ₗ (ℚ ×ₗ (ℚ ×ₗ (ℚ ×ₗ String)))) :=
  toLex (-d.conf, toLex (d.x, toLex (d.y, toLex (d.w, toLex (d.h, d.cls)))))

/-- The Deduplicator's sort order: `detLE a b` holds when `a` comes
no later than `b` in the deterministic confidence-descending order. -/
def detLE (a b : Detection) : Prop := detKey a ≤ detKey b

instance : DecidableRel detLE := fun a b =>
  inferInstanceAs (Decidable (detKey a ≤ detKey b))

theorem detKey_injective : Function.Injective detKey := by
  intro a b h
  simp only [detKey, toLex_inj, Prod.mk.injEq, neg_inj] at h
  obtain ⟨h1, h2, h3, h4, h5, h6⟩ := h
  cases a; cases b; simp_all

instance : IsTotal Detection detLE := ⟨fun a b => le_total (detKey a) (detKey b)⟩

instance : IsTrans Detection detLE := ⟨fun _ _ _ h1 h2 => le_trans h1 h2⟩

instance : IsAntisymm Detection detLE :=
  ⟨fun _ _ h1 h2 => detKey_injective (le_antisymm h1 h2)⟩

/-- A detection that sorts earlier has confidence at least as large. -/
theorem detLE_conf {a b : Detection} (h : detLE a b) : b.conf ≤ a.conf := by
  unfold detLE detKey at h
  rcases (Prod.Lex.le_iff _ _).mp h with hlt | ⟨heq, _⟩
  · have : -a.conf < -b.conf := hlt
    linarith
  · have : -a.conf = -b.conf := heq
    linarith

/-- Modelled from the spec (glossary, §4.5): intersection area of the
two axis-aligned boxes of two detections. -/
def interArea (a b : Detection) : ℚ :=
  max 0 (min (a.x + a.w) (b.x + b.w) - max a.x b.x) *
    max 0 (min (a.y + a.h) (b.y + b.h) - max a.y b.y)

/-- Modelled from the spec (glossary): intersection-over-union of the
boxes of two detections — overlapping area over union area (0 when the
union is degenerate). -/
def iou (a b : Detection) : ℚ :=
  let i := interArea a b
  let u := a.w * a.h + b.w * b.h - i
  if u = 0 then 0 else i / u

theorem interArea_comm (a b : Detection) : interArea a b = interArea b a := by
  unfold interArea
  rw [min_comm (a.x + a.w), max_comm a.x, min_comm (a.y + a.h), max_comm a.y]

theorem iou_comm (a b : Detection) : iou a b = iou b a := by
  unfold iou
  rw [interArea_comm]
  ring_nf

/-- Modelled from the spec (§4.5): the kept detection `k` suppresses a
remaining detection `d` iff their IoU exceeds the threshold **and** the
class labels match (cross-class overlaps are retained). -/
def suppresses (thr : ℚ) (k d : Detection) : Bool :=
  decide (k.cls = d.cls) && decide (thr < iou k d)

theorem suppresses_symm (thr : ℚ) (a b : Detection) :
    suppresses thr a b = suppresses thr b a := by
  unfold suppresses
  rw [iou_comm, show (decide (a.cls = b.cls)) = (decide (b.cls = a.cls)) from
    decide_eq_decide.mpr eq_comm]

/-- Modelled from the spec (§4.5): the greedy selection loop — keep the
first (highest-confidence) remaining detection, drop every remaining
detection it suppresses, repeat. -/
def nmsRun (thr : ℚ) : List Detection → List Detection
  | [] => []
  | d :: rest => d :: nmsRun thr (rest.filter fun e => !suppresses thr d e)
termination_by l => l.length
decreasing_by
  simp only [List.length_cons]
  exact Nat.lt_succ_of_le (List.length_filter_le _ _)

/-- Modelled from the spec (§4.5): sort the page's detections by the
deterministic confidence-descending order. -/
def sortDets (l : List Detection) : List Detection := l.insertionSort detLE

/-- Modelled from the spec (§4.5): `deduplicate(PageDetectionSet,
iouThreshold) → FinalDetectionSet` — deterministic sort, then greedy
non-maximum suppression. -/
def deduplicate (thr : ℚ) (l : List Detection) : List Detection :=
  nmsRun thr (sortDets l)

theorem nmsRun_subset (thr : ℚ) : ∀ l : List Detection, ∀ d ∈ nmsRun thr l, d ∈ l := by
  intro l
  induction l using nmsRun.induct thr with
  | case1 => intro d hd; simp [nmsRun] at hd
  | case2 hd rest ih =>
    intro d hmem
    rw [nmsRun] at hmem
    rcases List.mem_cons.mp hmem with h | h
    · exact h ▸ List.mem_cons_self _ _
    · exact List.mem_cons_of_mem _ (List.mem_of_mem_filter (ih d h))

theorem nmsRun_pairwise (thr : ℚ) :
    ∀ l : List Detection,
      List.Pairwise (fun a b => suppresses thr a b = false) (nmsRun thr l) := by
  intro l
  induction l using nmsRun.induct thr with
  | case1 => simp [nmsRun]
  | case2 hd rest ih =>
    rw [nmsRun]
    refine List.Pairwise.cons (fun e he => ?_) ih
    have := List.of_mem_filter (nmsRun_subset thr _ e he)
    simpa using this

theorem nmsRun_discarded (thr : ℚ) :
    ∀ l : List Detection, List.Sorted detLE l → ∀ d ∈ l, d ∉ nmsRun thr l →
      ∃ k ∈ nmsRun thr l, suppresses thr k d = true ∧ d.conf ≤ k.conf := by
  intro l
  induction l using nmsRun.induct thr with
  | case1 => intro _ d hd; simp at hd
  | case2 hd rest ih =>
    intro hsort d hmem hout
    rw [nmsRun] at hout ⊢
    obtain ⟨hhd, hrest⟩ := List.sorted_cons.mp hsort
    rcases List.mem_cons.mp hmem with rfl | hdrest
    · exact absurd (List.mem_cons_self _ _) hout
    · by_cases hs : suppresses thr hd d = true
      · exact ⟨hd, List.mem_cons_self _ _, hs, detLE_conf (hhd d hdrest)⟩
      · have hfil : d ∈ rest.filter fun e => !suppresses thr hd e :=
          List.mem_filter.mpr ⟨hdrest, by simp [Bool.eq_false_iff.mpr hs]⟩
        have hout' : d ∉ nmsRun thr (rest.filter fun e => !suppresses thr hd e) :=
          fun h => hout (List.mem_cons_of_mem _ h)
        obtain ⟨k, hk, hks, hkc⟩ := ih (hrest.filter _) d hfil hout'
        exact ⟨k, List.mem_cons_of_mem _ hk, hks, hkc⟩

theorem deduplicate_sub (thr : ℚ) (l : List Detection) :
    ∀ d ∈ deduplicate thr l, d ∈ l := fun d hd =>
  (List.perm_insertionSort detLE l).mem_iff.mp (nmsRun_subset thr _ d hd)

/-- Two detections that a same-class greedy pass compared never both
survive with IoU above the threshold. -/
theorem deduplicate_no_dup (thr : ℚ) (l : List Detection) :
    ∀ a ∈ deduplicate thr l, ∀ b ∈ deduplicate thr l, a ≠ b → a.cls = b.cls →
      iou a b ≤ thr := by
  intro a ha b hb hne hcls
  have hp := nmsRun_pairwise thr (sortDets l)
  have hsym : Symmetric fun a b : Detection => suppresses thr a b = false := by
    intro x y h
    rw [suppresses_symm]
    exact h
  have := hp.forall hsym ha hb hne
  unfold suppresses at this
  rcases Bool.and_eq_false_iff.mp this with h | h
  · exact absurd hcls (by simpa using h)
  · simpa using le_of_not_lt (by simpa using h)

/-- Same-class example pair: IoU 4/5, confidences 9/10 and 6/10 (spec §8). -/
def exHigh : Detection := ⟨"smoke", 0, 0, 100, 90, 9/10⟩

/-- Same-class partner of `exHigh`, shifted 10 px down. -/
def exLow : Detection := ⟨"smoke", 0, 10, 100, 90, 6/10⟩

/-- Cross-class example: a smoke-detector box with IoU 9/10 against `exHeat`. -/
def exSmoke : Detection := ⟨"smoke", 0, 0, 100, 95, 9/10⟩

/-- Cross-class partner of `exSmoke`, class "heat", shifted 5 px down. -/
def exHeat : Detection := ⟨"heat", 0, 5, 100, 95, 8/10⟩

/-- C1: the Deduplicator's greedy NMS only ever keeps input detections;
every discarded detection is witnessed by a kept same-class detection of
at least its confidence whose IoU with it exceeds the threshold; two
kept same-class detections never exceed the threshold (cross-class
overlaps are never grounds for discarding); and on the spec's concrete
scenarios: the same-class pair at IoU 4/5, confidences 9/10 vs 6/10 and
threshold 1/2 keeps only the 9/10 detection, while the cross-class pair
at IoU 9/10 keeps both. -/
theorem nms_greedy_claim (thr : ℚ) (l : List Detection) :
    (∀ d ∈ deduplicate thr l, d ∈ l)
    ∧ (∀ d ∈ l, d ∉ deduplicate thr l →
        ∃ k ∈ deduplicate thr l, k.cls = d.cls ∧ thr < iou k d ∧ d.conf ≤ k.conf)
    ∧ (∀ a ∈ deduplicate thr l, ∀ b ∈ deduplicate thr l, a ≠ b → a.cls = b.cls →
        iou a b ≤ thr)
    ∧ iou exHigh exLow = 4/5
    ∧ deduplicate (1/2) [exHigh, exLow] = [exHigh]
    ∧ iou exSmoke exHeat = 9/10
    ∧ deduplicate (1/2) [exSmoke, exHeat] = [exSmoke, exHeat] := by
  refine ⟨deduplicate_sub thr l, ?_, deduplicate_no_dup thr l, ?_, ?_, ?_, ?_⟩
  · intro d hd hout
    have hd' : d ∈ sortDets l := (List.perm_insertionSort detLE l).mem_iff.mpr hd
    obtain ⟨k, hk, hks, hkc⟩ :=
      nmsRun_discarded thr (sortDets l) (List.sorted_insertionSort detLE l) d hd' hout
    unfold suppresses at hks
    rw [Bool.and_eq_true, decide_eq_true_eq, decide_eq_true_eq] at hks
    exact ⟨k, hk, hks.1, hks.2, hkc⟩
  · norm_num [iou, interArea, exHigh, exLow]
  · norm_num [deduplicate, sortDets, List.insertionSort, List.orderedInsert, nmsRun,
      suppresses, iou, interArea, detLE, detKey, exHigh, exLow, Prod.Lex.le_iff]
  · norm_num [iou, interArea, exSmoke, exHeat]
  · norm_num [deduplicate, sortDets, List.insertionSort, List.orderedInsert, nmsRun,
      suppresses, iou, interArea, detLE, detKey, exSmoke, exHeat, Prod.Lex.le_iff,
      List.filter_cons, List.filter_nil]
    simp [nmsRun]

/-- Witness for `nms_greedy_claim`: at threshold 1/2 on the concrete
same-class pair, the discarded 6/10 detection has the kept 9/10
detection as its suppressor. -/
theorem nms_greedy_claim_witness :
    exLow ∈ [exHigh, exLow] ∧ exLow ∉ deduplicate (1/2) [exHigh, exLow] ∧
      ∃ k ∈ deduplicate (1/2) [exHigh, exLow],
        k.cls = exLow.cls ∧ (1/2 : ℚ) < iou k exLow ∧ exLow.conf ≤ k.conf := by
  have hc := nms_greedy_claim (1/2) [exHigh, exLow]
  have hne : exLow ∉ deduplicate (1/2) [exHigh, exLow] := by
    rw [hc.2.2.2.2.1]
    norm_num [exHigh, exLow, Detection.mk.injEq]
  exact ⟨List.mem_cons_of_mem _ (List.mem_cons_self _ _), hne,
    hc.2.1 exLow (List.mem_cons_of_mem _ (List.mem_cons_self _ _)) hne⟩

/-- C2: the Deduplicator is order-independent — any two input orderings
of the same raw PageDetectionSet produce the same FinalDetectionSet,
because the deterministic sort fixes the selection order. -/
theorem deduplicate_order_independent (thr : ℚ) (l₁ l₂ : List Detection)
    (h : l₁.Perm l₂) : deduplicate thr l₁ = deduplicate thr l₂ := by
  unfold deduplicate sortDets
  congr 1
  exact List.eq_of_perm_of_sorted
    ((List.perm_insertionSort detLE l₁).trans (h.trans (List.perm_insertionSort detLE l₂).symm))
    (List.sorted_insertionSort detLE l₁) (List.sorted_insertionSort detLE l₂)

/-- Witness for `deduplicate_order_independent`: the two orderings of the
concrete same-class pair deduplicate identically. -/
theorem deduplicate_order_independent_witness :
    deduplicate (1/2) [exHigh, exLow] = deduplicate (1/2) [exLow, exHigh] :=
  deduplicate_order_independent (1/2) [exHigh, exLow] [exLow, exHigh]
    (List.Perm.swap exLow exHigh [])

/-! ## Coordinate remapping (DetectionDispatcher / Annotator) -/

/-- A bounding box `(x, y, w, h)` in some explicit pixel space (spec §3). -/
structure Box where
  x : ℚ
  y : ℚ
  w : ℚ
  h : ℚ
deriving DecidableEq, Repr

/-- Modelled from the spec (§4.4): the DetectionDispatcher remaps a
tile-local box to page-global coordinates using the tile's known page
origin and the DPI-to-DPI scale factor `rasterDpi / detectionDpi`
(1 when detection and rasterization share a DPI); the implementation
(`modules/` Python code) is not under src/. -/
def remapToPage (originX originY detectionDpi rasterDpi : ℚ) (b : Box) : Box :=
  let s := rasterDpi / detectionDpi
  ⟨originX + b.x * s, originY + b.y * s, b.w * s, b.h * s⟩

/-- Modelled from the spec (§4.6): before drawing, the Annotator
rescales every box by `exportDpi / detectionDpi`; the implementation
(`modules/visualizer.py`) is not under src/. -/
def annotatorRescale (exportDpi detectionDpi : ℚ) (b : Box) : Box :=
  let s := exportDpi / detectionDpi
  ⟨b.x * s, b.y * s, b.w * s, b.h * s⟩

/-- C3: remapping adds the tile's page origin and applies the
DPI-to-DPI scale factor, which is 1 at equal DPIs; the Annotator
rescales by `exportDpi / detectionDpi`; concretely, tile-local
(10,10,50,50) at page origin (640,0) remaps to (650,10,50,50) exactly,
and re-export at 2× the detection DPI yields (1300,20,100,100). -/
theorem coordinate_round_trip (dpi : ℚ) (hdpi : dpi ≠ 0) :
    (∀ ox oy b, remapToPage ox oy dpi dpi b = ⟨ox + b.x, oy + b.y, b.w, b.h⟩)
    ∧ (∀ e d b, annotatorRescale e d b =
        ⟨b.x * (e / d), b.y * (e / d), b.w * (e / d), b.h * (e / d)⟩)
    ∧ remapToPage 640 0 dpi dpi ⟨10, 10, 50, 50⟩ = ⟨650, 10, 50, 50⟩
    ∧ annotatorRescale (2 * dpi) dpi ⟨650, 10, 50, 50⟩ = ⟨1300, 20, 100, 100⟩ := by
  have hs : dpi / dpi = 1 := div_self hdpi
  have hs2 : 2 * dpi / dpi = 2 := by field_simp
  refine ⟨fun ox oy b => ?_, fun e d b => rfl, ?_, ?_⟩
  · simp [remapToPage, hs]
  · simp [remapToPage, hs]; norm_num
  · simp [annotatorRescale, hs2]; norm_num

/-- Witness for `coordinate_round_trip` at detection DPI 300. -/
theorem coordinate_round_trip_witness :
    remapToPage 640 0 300 300 ⟨10, 10, 50, 50⟩ = ⟨650, 10, 50, 50⟩ ∧
      annotatorRescale (2 * 300) 300 ⟨650, 10, 50, 50⟩ = ⟨1300, 20, 100, 100⟩ :=
  ⟨(coordinate_round_trip 300 (by norm_num)).2.2.1,
   (coordinate_round_trip 300 (by norm_num)).2.2.2⟩

/-! ## DetectionCache (content-addressed tile cache) -/

/-- Modelled from the spec (§3): a tile carries its pixel buffer plus
position/page/document attributes; only the pixel content feeds the
CacheKey. -/
structure Tile where
  pixels : List ℕ
  pageIndex : ℕ
  originX : ℚ
  originY : ℚ
  docId : String
deriving DecidableEq

/-- Modelled from the spec (§3, CacheKey): a deterministic hash of the
tile's pixel content and nothing else; the hash itself (MD5 in the
missing `modules/roboflow_detector.py`) is modelled as the content. -/
def cacheKey (t : Tile) : List ℕ := t.pixels

/-- Modelled from the spec (§4.3): the content-addressed store, as a
key → DetectionResult association list. -/
def cacheGet (c : List (List ℕ × List Detection)) (k : List ℕ) :
    Option (List Detection) := c.lookup k

/-- Modelled from the spec (§4.3): `put` replaces the entry for an
existing key and otherwise appends a fresh entry. -/
def cachePut (c : List (List ℕ × List Detection)) (k : List ℕ)
    (r : List Detection) : List (List ℕ × List Detection) :=
  match c with
  | [] => [(k, r)]
  | (k', r') :: rest =>
      if k' = k then (k, r) :: rest else (k', r') :: cachePut rest k r

/-- Modelled from the spec (§4.4): per-tile dispatch — on cache hit use
the cached DetectionResult, on miss call the detection service on the
tile content and write the result through. Returns the looked-up result
and the updated cache. -/
def processTile (detect : List ℕ → List Detection)
    (c : List (List ℕ × List Detection)) (t : Tile) :
    List Detection × List (List ℕ × List Detection) :=
  match cacheGet c (cacheKey t) with
  | some r => (r, c)
  | none => (detect (cacheKey t), cachePut c (cacheKey t) (detect (cacheKey t)))

/-- C4: the CacheKey depends only on pixel content — tiles with
byte-identical pixels share a key regardless of position, page or
document — so dispatching two such tiles against an empty cache creates
a single cache entry and returns the identical DetectionResult twice. -/
theorem cache_key_content_addressed (detect : List ℕ → List Detection)
    (t₁ t₂ : Tile) (hpix : t₁.pixels = t₂.pixels) :
    cacheKey t₁ = cacheKey t₂
    ∧ (processTile detect [] t₁).2.length = 1
    ∧ (processTile detect (processTile detect [] t₁).2 t₂).1 =
        (processTile detect [] t₁).1
    ∧ (processTile detect (processTile detect [] t₁).2 t₂).2 =
        (processTile detect [] t₁).2 := by
  have hk : cacheKey t₁ = cacheKey t₂ := hpix
  refine ⟨hk, ?_, ?_, ?_⟩ <;>
    simp [processTile, cacheGet, cachePut, cacheKey, ← hpix, List.lookup]

/-- Witness for `cache_key_content_addressed`: the same blank tile
content on two different pages of two different documents. -/
theorem cache_key_content_addressed_witness :
    (⟨[255, 255, 255], 1, 0, 0, "docA"⟩ : Tile).pixels =
        (⟨[255, 255, 255], 7, 640, 320, "docB"⟩ : Tile).pixels ∧
      cacheKey ⟨[255, 255, 255], 1, 0, 0, "docA"⟩ =
        cacheKey ⟨[255, 255, 255], 7, 640, 320, "docB"⟩ :=
  ⟨rfl, (cache_key_content_addressed (fun _ => []) _ _ rfl).1⟩

/-! ## JobOrchestrator state machine -/

/-- Modelled from the spec (§4.7): the Job states. -/
inductive JobState where
  | created
  | rasterizing
  | tiling
  | detecting
  | deduplicating
  | ready
  | failed
deriving DecidableEq, Repr

/-- Modelled from the spec (§4.7): a Job with its state and the exposed
progress counter `(processedTiles, totalTiles)`. -/
structure Job where
  state : JobState
  processed : ℕ
  total : ℕ
deriving DecidableEq, Repr

/-- The events driving a Job through its lifecycle. -/
inductive JobEvent where
  | startRasterizing
  | startTiling
  | startDetecting (total : ℕ)
  | tileResolved
  | finishDetecting
  | finishDeduplicating
  | fatalError
deriving DecidableEq, Repr

/-- Modelled from the spec (§4.7, §7): the JobOrchestrator transition
function (the orchestrator implementation is not under src/).
`startDetecting n` fixes the tile total when tiling completes;
`tileResolved` advances the counter while Detecting; the Job may leave
`detecting` for `deduplicating` only when every tile has resolved;
`fatalError` (DocumentError / cancellation) reaches `failed` from any
non-terminal state. Invalid events are rejected (`none`). -/
def jobStep (j : Job) (e : JobEvent) : Option Job :=
  match e with
  | .startRasterizing =>
      if j.state = .created then some { j with state := .rasterizing } else none
  | .startTiling =>
      if j.state = .rasterizing then some { j with state := .tiling } else none
  | .startDetecting n =>
      if j.state = .tiling then
        some { state := .detecting, processed := 0, total := n }
      else none
  | .tileResolved =>
      if j.state = .detecting ∧ j.processed < j.total then
        some { j with processed := j.processed + 1 }
      else none
  | .finishDetecting =>
      if j.state = .detecting ∧ j.processed = j.total then
        some { j with state := .deduplicating }
      else none
  | .finishDeduplicating =>
      if j.state = .deduplicating then some { j with state := .ready } else none
  | .fatalError =>
      if j.state ≠ .ready ∧ j.state ≠ .failed then
        some { j with state := .failed }
      else none

/-- A freshly created Job: no tiles counted yet. -/
def jobInit : Job := ⟨.created, 0, 0⟩

/-- Run a Job from `jobInit` over a list of events, ignoring rejected
events. -/
def jobRun (es : List JobEvent) : Job :=
  es.foldl (fun j e => (jobStep j e).getD j) jobInit

/-- States that precede detection never have a nonzero counter. -/
def JobInv (j : Job) : Prop :=
  (j.state = .created ∨ j.state = .rasterizing ∨ j.state = .tiling) → j.processed = 0

theorem jobStep_inv {j j' : Job} {e : JobEvent} (hinv : JobInv j)
    (h : jobStep j e = some j') : JobInv j' := by
  cases e <;> simp only [jobStep] at h <;> split at h <;>
    simp only [Option.some.injEq, reduceCtorEq] at h <;> subst h <;>
    simp_all [JobInv]

theorem jobStep_mono {j j' : Job} {e : JobEvent} (hinv : JobInv j)
    (h : jobStep j e = some j') : j.processed ≤ j'.processed := by
  cases e <;> simp only [jobStep] at h <;> split at h <;>
    simp only [Option.some.injEq, reduceCtorEq] at h <;> subst h <;>
    simp_all [JobInv]

theorem jobRun_inv (es : List JobEvent) : JobInv (jobRun es) := by
  unfold jobRun
  induction es using List.reverseRecOn with
  | nil => intro h; rfl
  | append_singleton es e ih =>
    rw [List.foldl_append, List.foldl_cons, List.foldl_nil]
    rcases hstep : jobStep (es.foldl (fun j e => (jobStep j e).getD j) jobInit) e with _ | j'
    · simpa [hstep] using ih
    · simpa [hstep] using jobStep_inv ih hstep

/-- C5: the exposed progress counter never decreases over a Job's
event history, and the Job leaves `detecting` for `deduplicating`
exactly when `processedTiles = totalTiles`: the `finishDetecting`
transition is enabled iff the counter is full, and any step out of
`detecting` into `deduplicating` certifies the counter was full. -/
theorem job_progress_claim :
    (∀ es e, (jobRun es).processed ≤ (jobRun (es ++ [e])).processed)
    ∧ (∀ j : Job, (jobStep j .finishDetecting).isSome ↔
        (j.state = .detecting ∧ j.processed = j.total))
    ∧ (∀ (j j' : Job) (e : JobEvent), jobStep j e = some j' →
        j.state = .detecting → j'.state = .deduplicating →
        j.processed = j.total) := by
  refine ⟨fun es e => ?_, fun j => ?_, fun j j' e h hdet hdedup => ?_⟩
  · have hinv : JobInv (jobRun es) := jobRun_inv es
    unfold jobRun at hinv ⊢
    rw [List.foldl_append, List.foldl_cons, List.foldl_nil]
    rcases hstep : jobStep (List.foldl (fun j e => (jobStep j e).getD j) jobInit es) e
      with _ | j'
    · simp
    · simp only [hstep, Option.getD_some]
      exact jobStep_mono hinv hstep
  · unfold jobStep
    split <;> simp_all
  · cases e <;> simp only [jobStep] at h <;> split at h <;>
      simp only [Option.some.injEq, reduceCtorEq] at h <;> subst h <;> simp_all

/-- Witness for `job_progress_claim`: a three-tile run — the counter
climbs 0,1,2,3 and the detecting → deduplicating exit is enabled only
once all three tiles resolved. -/
theorem job_progress_claim_witness :
    (jobRun [.startRasterizing, .startTiling, .startDetecting 3, .tileResolved]).processed
      ≤ (jobRun ([.startRasterizing, .startTiling, .startDetecting 3, .tileResolved]
          ++ [JobEvent.tileResolved])).processed
    ∧ ((jobStep ⟨.detecting, 3, 3⟩ .finishDetecting).isSome ↔
        ((⟨.detecting, 3, 3⟩ : Job).state = .detecting ∧
          (⟨.detecting, 3, 3⟩ : Job).processed = (⟨.detecting, 3, 3⟩ : Job).total)) :=
  ⟨job_progress_claim.1 _ JobEvent.tileResolved,
   job_progress_claim.2.1 ⟨.detecting, 3, 3⟩⟩

/-! ## Job outcome under failures (spec §7) -/

/-- Modelled from the spec (§4.4, §7): how one tile ends — a
DetectionResult, or permanent failure after retries are exhausted. -/
inductive TileOutcome where
  | success (dets : List Detection)
  | permanentFailure
deriving DecidableEq

/-- Modelled from the spec (§6): the per-run options checked at Job
creation. -/
structure RunOptions where
  workerCount : ℤ
  confidence : ℚ
deriving DecidableEq

/-- Modelled from the spec (§7, ConfigurationError): worker count must
be positive and confidence must lie in [0,1]. -/
def configValid (o : RunOptions) : Prop :=
  0 < o.workerCount ∧ 0 ≤ o.confidence ∧ o.confidence ≤ 1

instance (o : RunOptions) : Decidable (configValid o) :=
  inferInstanceAs (Decidable (_ ∧ _ ∧ _))

/-- Modelled from the spec (§4.1, §7): whether opening/rasterizing the
document raised a fatal DocumentError. -/
inductive DocOutcome where
  | ok
  | documentError
deriving DecidableEq

/-- The user-visible end of a Job: terminal state, optional result,
and the failed-tile count surfaced in status. -/
structure JobFinal where
  state : JobState
  result : Option (List Detection)
  failedTiles : ℕ
deriving DecidableEq

/-- The detections of the successful tiles. -/
def tileSuccesses : List TileOutcome → List Detection
  | [] => []
  | .success ds :: rest => ds ++ tileSuccesses rest
  | .permanentFailure :: rest => tileSuccesses rest

/-- The number of permanently failed tiles. -/
def tileFailures (ts : List TileOutcome) : ℕ :=
  ts.countP fun t => decide (t = .permanentFailure)

/-- Modelled from the spec (§7): a ConfigurationError is fatal at Job
creation; a DocumentError aborts the whole Job with no partial result;
otherwise permanently failed tiles are excluded from the result and
counted, and the Job still completes. -/
def runJobModel (o : RunOptions) (doc : DocOutcome) (ts : List TileOutcome) :
    JobFinal :=
  if ¬ configValid o then ⟨.failed, none, 0⟩
  else
    match doc with
    | .documentError => ⟨.failed, none, 0⟩
    | .ok => ⟨.ready, some (tileSuccesses ts), tileFailures ts⟩

/-- C8: with a valid configuration and a readable document, a Job whose
tiles partly failed permanently still reaches `ready` with a result and
surfaces the exact non-zero failed-tile count; a DocumentError or an
invalid configuration reaches `failed` with no partial result. -/
theorem job_failure_claim (o : RunOptions) (doc : DocOutcome)
    (ts : List TileOutcome) :
    (configValid o → (runJobModel o .ok ts).state = .ready
      ∧ (runJobModel o .ok ts).result = some (tileSuccesses ts)
      ∧ (runJobModel o .ok ts).failedTiles = tileFailures ts
      ∧ (TileOutcome.permanentFailure ∈ ts →
          0 < (runJobModel o .ok ts).failedTiles))
    ∧ ((runJobModel o .documentError ts).state = .failed
        ∧ (runJobModel o .documentError ts).result = none)
    ∧ (¬ configValid o → (runJobModel o doc ts).state = .failed
        ∧ (runJobModel o doc ts).result = none) := by
  refine ⟨fun hv => ?_, ?_, fun hv => ?_⟩
  · refine ⟨by simp [runJobModel, hv], by simp [runJobModel, hv],
      by simp [runJobModel, hv], fun hmem => ?_⟩
    have hpos : 0 < tileFailures ts := by
      unfold tileFailures
      rw [List.countP_pos_iff]
      exact ⟨_, hmem, by simp⟩
    simpa [runJobModel, hv] using hpos
  · by_cases hv : configValid o <;> simp [runJobModel, hv]
  · simp [runJobModel, hv]

/-- Witness for `job_failure_claim`: one successful and one failed tile
under a valid configuration — the Job is `ready` with `failedTiles = 1`
— while an invalid worker count fails with no result. -/
theorem job_failure_claim_witness :
    (configValid ⟨4, 1/2⟩ →
      (runJobModel ⟨4, 1/2⟩ .ok [.success [exHigh], .permanentFailure]).state = .ready
      ∧ (runJobModel ⟨4, 1/2⟩ .ok [.success [exHigh], .permanentFailure]).result =
          some (tileSuccesses [.success [exHigh], .permanentFailure])
      ∧ (runJobModel ⟨4, 1/2⟩ .ok [.success [exHigh], .permanentFailure]).failedTiles =
          tileFailures [.success [exHigh], .permanentFailure]
      ∧ (TileOutcome.permanentFailure ∈
            [TileOutcome.success [exHigh], TileOutcome.permanentFailure] →
          0 < (runJobModel ⟨4, 1/2⟩ .ok
                [.success [exHigh], .permanentFailure]).failedTiles))
    ∧ (¬ configValid ⟨0, 1/2⟩ →
        (runJobModel ⟨0, 1/2⟩ .ok [.success [exHigh]]).state = .failed
        ∧ (runJobModel ⟨0, 1/2⟩ .ok [.success [exHigh]]).result = none) :=
  ⟨fun hv => (job_failure_claim ⟨4, 1/2⟩ .ok [.success [exHigh], .permanentFailure]).1 hv,
   fun hv => (job_failure_claim ⟨0, 1/2⟩ .ok [.success [exHigh]]).2.2 hv⟩

/-! ## startAnalysis request contents (src/unnamed/part_002, lines 1508–1549) -/

/-- The analysis-form inputs read by `startAnalysis('local')`: the
selected page numbers and the five option controls. -/
structure AnalyzeUI where
  selectedPages : List ℕ
  skipBlank : Bool
  skipEdges : Bool
  useParallel : Bool
  useCache : Bool
  confidence : ℚ

/-- `selectedPages.join(',')` from `startAnalysis`. -/
def joinPages (ps : List ℕ) : String :=
  String.intercalate "," (ps.map toString)

/-- Embedding of `startAnalysis('local')` from `src/unnamed/part_002`:
the FormData key/value pairs appended for the local analysis request,
in source order; `none` models the early-return when no page is
selected. -/
def startAnalysisLocalForm (pdfFile : String) (ui : AnalyzeUI) :
    Option (List (String × String)) :=
  if ui.selectedPages.length = 0 then none
  else
    some [("pdf", pdfFile),
          ("selected_pages", joinPages ui.selectedPages),
          ("skip_blank", toString ui.skipBlank),
          ("skip_edges", toString ui.skipEdges),
          ("use_parallel", toString ui.useParallel),
          ("use_cache", toString ui.useCache),
          ("confidence", toString ui.confidence)]

/-- C6 counterexample: the local analysis request built by
`startAnalysis` carries exactly the keys pdf, selected_pages,
skip_blank, skip_edges, use_parallel, use_cache and confidence — no
worker-count field is ever appended, contradicting the claim that every
request carries `workerCount`. -/
theorem startAnalysis_no_worker_count :
    ((startAnalysisLocalForm "plans.pdf" ⟨[1, 2], true, true, true, true, 1/2⟩).getD []).map
        Prod.fst =
      ["pdf", "selected_pages", "skip_blank", "skip_edges", "use_parallel",
        "use_cache", "confidence"]
    ∧ "workerCount" ∉ ((startAnalysisLocalForm "plans.pdf"
        ⟨[1, 2], true, true, true, true, 1/2⟩).getD []).map Prod.fst
    ∧ "worker_count" ∉ ((startAnalysisLocalForm "plans.pdf"
        ⟨[1, 2], true, true, true, true, 1/2⟩).getD []).map Prod.fst := by
  refine ⟨rfl, ?_, ?_⟩ <;> simp [startAnalysisLocalForm]

/-- C6 (amended): every local analysis request carries the document,
the selected page list and the options skip_blank, skip_edges,
use_parallel (parallelism), use_cache and confidence — and nothing
else; in particular no worker-count option is submitted. -/
theorem startAnalysis_request_contents (pdfFile : String) (ui : AnalyzeUI)
    (hpages : ui.selectedPages.length ≠ 0) :
    (startAnalysisLocalForm pdfFile ui).map (List.map Prod.fst) =
      some ["pdf", "selected_pages", "skip_blank", "skip_edges", "use_parallel",
        "use_cache", "confidence"]
    ∧ (startAnalysisLocalForm pdfFile ui) =
        some [("pdf", pdfFile),
          ("selected_pages", joinPages ui.selectedPages),
          ("skip_blank", toString ui.skipBlank),
          ("skip_edges", toString ui.skipEdges),
          ("use_parallel", toString ui.useParallel),
          ("use_cache", toString ui.useCache),
          ("confidence", toString ui.confidence)] := by
  simp [startAnalysisLocalForm, hpages]

/-- Witness for `startAnalysis_request_contents` on a two-page
selection. -/
theorem startAnalysis_request_contents_witness :
    (startAnalysisLocalForm "plans.pdf" ⟨[1, 2], true, false, true, true, 1/2⟩).map
        (List.map Prod.fst) =
      some ["pdf", "selected_pages", "skip_blank", "skip_edges", "use_parallel",
        "use_cache", "confidence"] :=
  (startAnalysis_request_contents "plans.pdf" ⟨[1, 2], true, false, true, true, 1/2⟩
    (by simp)).1

/-! ## Leads dashboard `fetchLeads` (src/unnamed/part_000, lines 23–30) -/

/-- The identifiers in scope inside `fetchLeads` in
`src/unnamed/part_000`: the module imports, the two top-level
declarations, the `Dashboard` hook bindings, the function's own locals
and the global `fetch`.  The module defines no `mergeLeads`. -/
def part000Scope : List String :=
  ["React", "useState", "useEffect", "LeadCard", "Dashboard",
   "leads", "setLeads", "loading", "setLoading", "fetchLeads",
   "response", "data", "fetch"]

/-- The UI state touched by `fetchLeads`: the displayed lead list and
the loading flag. -/
structure LeadsUI where
  leads : List String
  loading : Bool
deriving DecidableEq, Repr

/-- How a run of `fetchLeads` ends: normally, or with an uncaught
ReferenceError naming the unresolved identifier, leaving the state as
it was at the throw point. -/
inductive FetchOutcome where
  | ok (st : LeadsUI)
  | referenceError (name : String) (st : LeadsUI)
deriving DecidableEq, Repr

/-- Embedding of the success path of `fetchLeads` from
`src/unnamed/part_000` lines 23–30: `setLoading(true)`, then (with the
fetch and `response.json()` resolved, delivering `data.leads`) the call
`setLeads(mergeLeads(data.leads || []))` — which first resolves the
free identifier `mergeLeads` in scope and throws a ReferenceError when
it is absent, before `setLeads` or the final `setLoading(false)` can
run.  The `ok` branch is dead code for the module as shipped: no
`mergeLeads` binding exists, so its merged value is irrelevant and
modelled as the fetched list itself. -/
def fetchLeadsRun (fetchedLeads : List String) (st : LeadsUI) : FetchOutcome :=
  let st1 : LeadsUI := { st with loading := true }
  if "mergeLeads" ∈ part000Scope then
    FetchOutcome.ok { leads := fetchedLeads, loading := false }
  else
    FetchOutcome.referenceError "mergeLeads" st1

/-- C10: `mergeLeads` is not defined anywhere in the module, so every
successful fetch throws a ReferenceError before `setLeads` runs: the
lead list is never updated, and `setLoading(false)` on the success path
is unreachable — the state at the throw point still has
`loading = true` and the original lead list. -/
theorem fetchLeads_reference_error (fetchedLeads : List String) (st : LeadsUI) :
    "mergeLeads" ∉ part000Scope
    ∧ fetchLeadsRun fetchedLeads st =
        FetchOutcome.referenceError "mergeLeads" ⟨st.leads, true⟩ := by
  constructor
  · simp [part000Scope]
  · simp [fetchLeadsRun, part000Scope]

/-! ## aggregateDevicesByType (src/unnamed/part_002, lines 1717–1800) -/

/-- `DEVICE_NAME_MAP` from `src/unnamed/part_002` lines 72–104. -/
def DEVICE_NAME_MAP : List (String × String) :=
  [("cm", "Control Module"),
   ("co", "CO Detector"),
   ("dd", "Duct Detector"),
   ("dh", "Door Holder"),
   ("ecap", "Emergency Communications Access Panel"),
   ("ecps", "Emergency Communications Power Supply"),
   ("ecs", "Emergency Communication Station"),
   ("faap", "Remote Annunciator"),
   ("facp", "Fire Alarm Control Panel"),
   ("fsd", "Fire/Smoke Damper"),
   ("h_w", "Horn, Wall Mounted"),
   ("heat", "Heat Detector"),
   ("hs_c", "Horn/Strobe, Ceiling Mounted"),
   ("hs_w", "Horn/Strobe, Wall Mounted"),
   ("hs_w_wp", "Horn/Strobe, Wall Mounted, Weatherproof"),
   ("loc", "Local Operating Console"),
   ("mm", "Monitor Module"),
   ("nac", "NAC Panel"),
   ("pull", "Pull Station"),
   ("relay", "Relay Module"),
   ("rts", "Remote Test Switch"),
   ("s_w", "Strobe, Wall Mounted"),
   ("s_w_wp", "Strobe, Wall Mounted, Weatherproof"),
   ("sc", "Strobe, Ceiling Mounted"),
   ("smoke", "Smoke Detector"),
   ("smoke-co", "Smoke/CO Combo"),
   ("smoke-sb", "Smoke w/ Sounder Base"),
   ("sp_c", "Speaker, Ceiling Mounted"),
   ("ss_c", "Speaker/Strobe, Ceiling Mounted"),
   ("ss_w", "Speaker/Strobe, Wall Mounted"),
   ("ts", "Tamper Switch"),
   ("wf", "Waterflow Switch")]

/-- A device record of a page analysis as consumed by
`aggregateDevicesByType`; JS `null`/absent fields are `none`, and a JS
falsy string is the empty string. -/
structure Device where
  device_type : String
  confidence : Option ℚ
  location : Option String
  page_number : Option ℤ
deriving DecidableEq, Repr

/-- One page analysis: its page number and detected devices. -/
structure PageAnalysis where
  page_number : Option ℤ
  devices : List Device
deriving DecidableEq, Repr

/-- The per-device record pushed into the per-type map by
`aggregateDevicesByType`. -/
structure DevEntry where
  page : Option ℤ
  location : Option String
  confidence : Option ℚ
deriving DecidableEq, Repr

/-- Character-wise model of JS `String.prototype.toLowerCase` (the
map keys are plain ASCII). -/
def strToLower (s : String) : String :=
  ⟨s.data.map Char.toLower⟩

/-- `getDisplayName` from `aggregateDevicesByType`: lowercase the type,
look it up in `DEVICE_NAME_MAP`, fall back to the raw type; a falsy
(empty) type maps to "Unknown Device". -/
def getDisplayName (deviceType : String) : String :=
  if deviceType = "" then "Unknown Device"
  else
    match DEVICE_NAME_MAP.lookup (strToLower deviceType) with
    | some name => name
    | none => deviceType

/-- The group key of a device:
`getDisplayName(device.device_type || 'Unknown Device')`. -/
def devClass (d : Device) : String :=
  getDisplayName (if d.device_type = "" then "Unknown Device" else d.device_type)

/-- The entry pushed for one device on one page:
`{page: page.page_number ?? device.page_number ?? null,
  location: device.location || null, confidence}`. -/
def entryOf (p : PageAnalysis) (d : Device) : DevEntry :=
  { page := (p.page_number).orElse fun _ => d.page_number
    location :=
      match d.location with
      | some s => if s = "" then none else some s
      | none => none
    confidence := d.confidence }

/-- The flattened `(group key, entry)` stream produced by the nested
`pageAnalyses.forEach / page.devices.forEach` walk. -/
def allDevEntries (pas : List PageAnalysis) : List (String × DevEntry) :=
  pas.flatMap fun p => p.devices.map fun d => (devClass d, entryOf p d)

/-- `if (!map.has(k)) map.set(k, []); map.get(k).push(e)` on a JS Map
in insertion order: append to the bucket of `k`, creating it at the end
when absent. -/
def pushEntry (m : List (String × List DevEntry)) (k : String) (e : DevEntry) :
    List (String × List DevEntry) :=
  match m with
  | [] => [(k, [e])]
  | (k', es) :: rest =>
      if k' = k then (k', es ++ [e]) :: rest else (k', es) :: pushEntry rest k e

/-- Push a stream of keyed entries into the map. -/
def pushAll (m : List (String × List DevEntry))
    (kvs : List (String × DevEntry)) : List (String × List DevEntry) :=
  kvs.foldl (fun m kv => pushEntry m kv.1 kv.2) m

/-- The `Map` built by `aggregateDevicesByType` before the
`Array.from(map.entries()).map(...)` pass. -/
def entryMap (pas : List PageAnalysis) : List (String × List DevEntry) :=
  pushAll [] (allDevEntries pas)

/-- JS `Set` insertion: keep first occurrences in insertion order. -/
def insertUniq {α : Type} [DecidableEq α] (l : List α) (a : α) : List α :=
  if a ∈ l then l else l ++ [a]

/-- The element list of a JS `Set` fed from a list. -/
def setOfList {α : Type} [DecidableEq α] (l : List α) : List α :=
  l.foldl insertUniq []

/-- One aggregated row of the devices table. -/
structure DeviceGroup where
  deviceType : String
  count : ℕ
  pages : List ℤ
  locations : List String
  avgConfidence : Option ℚ
  minConfidence : Option ℚ
  maxConfidence : Option ℚ
deriving DecidableEq, Repr

/-- The group summarisation step of `aggregateDevicesByType`: page set
sorted ascending, location set, count, and average / `Math.min` /
`Math.max` of the numeric confidences (null when there are none). -/
def toGroup (kv : String × List DevEntry) : DeviceGroup :=
  let entries := kv.2
  let confs := entries.filterMap DevEntry.confidence
  { deviceType := kv.1
    count := entries.length
    pages := (setOfList (entries.filterMap DevEntry.page)).insertionSort (· ≤ ·)
    locations := setOfList (entries.filterMap DevEntry.location)
    avgConfidence :=
      if confs.length = 0 then none else some (confs.sum / (confs.length : ℚ))
    minConfidence :=
      match confs with
      | [] => none
      | c :: cs => some (cs.foldl min c)
    maxConfidence :=
      match confs with
      | [] => none
      | c :: cs => some (cs.foldl max c) }

/-- The final comparator of `aggregateDevicesByType`:
`b.count - a.count`, ties by `a.deviceType.localeCompare(b.deviceType)`
— count descending, then display name ascending. -/
def groupLE (a b : DeviceGroup) : Prop :=
  b.count < a.count ∨ (a.count = b.count ∧ a.deviceType ≤ b.deviceType)

instance : DecidableRel groupLE := fun _ _ =>
  inferInstanceAs (Decidable (_ ∨ _ ∧ _))

instance : IsTotal DeviceGroup groupLE := by
  constructor
  intro a b
  rcases lt_trichotomy a.count b.count with h | h | h
  · exact Or.inr (Or.inl h)
  · rcases le_total a.deviceType b.deviceType with hs | hs
    · exact Or.inl (Or.inr ⟨h, hs⟩)
    · exact Or.inr (Or.inr ⟨h.symm, hs⟩)
  · exact Or.inl (Or.inl h)

instance : IsTrans DeviceGroup groupLE := by
  constructor
  intro a b c hab hbc
  rcases hab with h1 | ⟨h1, h1s⟩ <;> rcases hbc with h2 | ⟨h2, h2s⟩
  · exact Or.inl (h2.trans h1)
  · exact Or.inl (h2 ▸ h1)
  · exact Or.inl (by omega)
  · exact Or.inr ⟨h1.trans h2, h1s.trans h2s⟩

/-- Embedding of `aggregateDevicesByType` from `src/unnamed/part_002`
lines 1717–1800: group the devices of all pages by display name in a
Map, summarise each bucket, and sort by count descending with display
name as tie-break. -/
def aggregateDevicesByType (pas : List PageAnalysis) : List DeviceGroup :=
  ((entryMap pas).map toGroup).insertionSort groupLE

/-- The bucket of a key in the per-type map. -/
def bucketOf (m : List (String × List DevEntry)) (k : String) : List DevEntry :=
  match m with
  | [] => []
  | (k', es) :: rest => if k' = k then es else bucketOf rest k

theorem bucketOf_pushEntry_same (m : List (String × List DevEntry)) (k : String)
    (e : DevEntry) : bucketOf (pushEntry m k e) k = bucketOf m k ++ [e] := by
  induction m with
  | nil => simp [pushEntry, bucketOf]
  | cons kv rest ih =>
    obtain ⟨k', es⟩ := kv
    by_cases h : k' = k <;> simp [pushEntry, bucketOf, h, ih]

theorem bucketOf_pushEntry_ne (m : List (String × List DevEntry)) {k k' : String}
    (hne : k' ≠ k) (e : DevEntry) :
    bucketOf (pushEntry m k e) k' = bucketOf m k' := by
  induction m with
  | nil => simp [pushEntry, bucketOf, Ne.symm hne]
  | cons kv rest ih =>
    obtain ⟨k₀, es⟩ := kv
    by_cases h : k₀ = k
    · subst h
      simp [pushEntry, bucketOf, Ne.symm hne]
    · by_cases h' : k₀ = k' <;> simp [pushEntry, bucketOf, h, h', ih, hne]

theorem keys_pushEntry (m : List (String × List DevEntry)) (k : String)
    (e : DevEntry) :
    (pushEntry m k e).map Prod.fst =
      if k ∈ m.map Prod.fst then m.map Prod.fst else m.map Prod.fst ++ [k] := by
  induction m with
  | nil => simp [pushEntry]
  | cons kv rest ih =>
    obtain ⟨k₀, es⟩ := kv
    by_cases h : k₀ = k
    · subst h
      simp [pushEntry]
    · by_cases hmem : k ∈ rest.map Prod.fst <;>
        simp [pushEntry, h, Ne.symm h, hmem, ih]

theorem mem_keys_pushEntry (m : List (String × List DevEntry)) (k k' : String)
    (e : DevEntry) :
    k' ∈ (pushEntry m k e).map Prod.fst ↔ k' ∈ m.map Prod.fst ∨ k' = k := by
  rw [keys_pushEntry]
  by_cases hmem : k ∈ m.map Prod.fst
  · simp only [if_pos hmem]
    constructor
    · exact Or.inl
    · rintro (h | rfl)
      · exact h
      · exact hmem
  · simp [if_neg hmem, or_comm]

theorem nodup_keys_pushEntry {m : List (String × List DevEntry)}
    (h : (m.map Prod.fst).Nodup) (k : String) (e : DevEntry) :
    ((pushEntry m k e).map Prod.fst).Nodup := by
  rw [keys_pushEntry]
  by_cases hmem : k ∈ m.map Prod.fst
  · simpa [hmem] using h
  · simp [hmem, List.nodup_append, h]

theorem sum_pushEntry (m : List (String × List DevEntry)) (k : String)
    (e : DevEntry) :
    ((pushEntry m k e).map fun kv => kv.2.length).sum =
      ((m.map fun kv => kv.2.length)).sum + 1 := by
  induction m with
  | nil => simp [pushEntry]
  | cons kv rest ih =>
    obtain ⟨k₀, es⟩ := kv
    by_cases h : k₀ = k <;> simp [pushEntry, h, ih] <;> omega

theorem bucketOf_pushAll (kvs : List (String × DevEntry)) :
    ∀ (m : List (String × List DevEntry)) (k : String),
      bucketOf (pushAll m kvs) k =
        bucketOf m k ++ (kvs.filter fun kv => kv.1 = k).map Prod.snd := by
  induction kvs with
  | nil => intro m k; simp [pushAll]
  | cons kv kvs ih =>
    intro m k
    have hstep : pushAll m (kv :: kvs) = pushAll (pushEntry m kv.1 kv.2) kvs := rfl
    rw [hstep, ih]
    by_cases h : kv.1 = k
    · subst h
      rw [bucketOf_pushEntry_same]
      simp
    · rw [bucketOf_pushEntry_ne _ (Ne.symm h)]
      simp [List.filter_cons, h]

theorem nodup_keys_pushAll (kvs : List (String × DevEntry)) :
    ∀ m : List (String × List DevEntry), (m.map Prod.fst).Nodup →
      ((pushAll m kvs).map Prod.fst).Nodup := by
  induction kvs with
  | nil => intro m h; exact h
  | cons kv kvs ih =>
    intro m h
    exact ih _ (nodup_keys_pushEntry h kv.1 kv.2)

theorem mem_keys_pushAll (kvs : List (String × DevEntry)) :
    ∀ (m : List (String × List DevEntry)) (k : String),
      k ∈ (pushAll m kvs).map Prod.fst ↔
        k ∈ m.map Prod.fst ∨ ∃ kv ∈ kvs, kv.1 = k := by
  induction kvs with
  | nil => intro m k; simp [pushAll]
  | cons kv kvs ih =>
    intro m k
    have hstep : pushAll m (kv :: kvs) = pushAll (pushEntry m kv.1 kv.2) kvs := rfl
    rw [hstep, ih, mem_keys_pushEntry]
    constructor
    · rintro ((h | rfl) | h)
      · exact Or.inl h
      · exact Or.inr ⟨kv, List.mem_cons_self _ _, rfl⟩
      · obtain ⟨kv', hkv', hk⟩ := h
        exact Or.inr ⟨kv', List.mem_cons_of_mem _ hkv', hk⟩
    · rintro (h | ⟨kv', hkv', hk⟩)
      · exact Or.inl (Or.inl h)
      · rcases List.mem_cons.mp hkv' with rfl | hmem
        · exact Or.inl (Or.inr hk.symm)
        · exact Or.inr ⟨kv', hmem, hk⟩

theorem sum_pushAll (kvs : List (String × DevEntry)) :
    ∀ m : List (String × List DevEntry),
      ((pushAll m kvs).map fun kv => kv.2.length).sum =
        ((m.map fun kv => kv.2.length)).sum + kvs.length := by
  induction kvs with
  | nil => intro m; simp [pushAll]
  | cons kv kvs ih =>
    intro m
    have hstep : pushAll m (kv :: kvs) = pushAll (pushEntry m kv.1 kv.2) kvs := rfl
    rw [hstep, ih, sum_pushEntry]
    simp
    omega

theorem bucketOf_eq_of_mem :
    ∀ {m : List (String × List DevEntry)} {k : String} {es : List DevEntry},
      (m.map Prod.fst).Nodup → (k, es) ∈ m → bucketOf m k = es := by
  intro m
  induction m with
  | nil => intro k es _ h; simp at h
  | cons kv rest ih =>
    intro k es hnd hmem
    obtain ⟨k₀, es₀⟩ := kv
    rw [List.map_cons, List.nodup_cons] at hnd
    rcases List.mem_cons.mp hmem with heq | hmem'
    · injection heq with h1 h2
      subst h1; subst h2
      simp [bucketOf]
    · have hk : k₀ ≠ k := by
        rintro rfl
        exact hnd.1 (List.mem_map.mpr ⟨(k₀, es), hmem', rfl⟩)
      simp only [bucketOf, if_neg hk]
      exact ih hnd.2 hmem'

theorem entryMap_keys_nodup (pas : List PageAnalysis) :
    ((entryMap pas).map Prod.fst).Nodup :=
  nodup_keys_pushAll (allDevEntries pas) [] (by simp)

theorem entryMap_bucket (pas : List PageAnalysis) (k : String) :
    bucketOf (entryMap pas) k =
      ((allDevEntries pas).filter fun kv => kv.1 = k).map Prod.snd := by
  have := bucketOf_pushAll (allDevEntries pas) [] k
  simpa [bucketOf] using this

theorem entryMap_mem_keys (pas : List PageAnalysis) (k : String) :
    k ∈ (entryMap pas).map Prod.fst ↔ ∃ kv ∈ allDevEntries pas, kv.1 = k := by
  have := mem_keys_pushAll (allDevEntries pas) [] k
  simpa using this

theorem entryMap_sum (pas : List PageAnalysis) :
    ((entryMap pas).map fun kv => kv.2.length).sum = (allDevEntries pas).length := by
  have := sum_pushAll (allDevEntries pas) []
  simpa using this

theorem entryMap_snd_eq (pas : List PageAnalysis) {k : String}
    {es : List DevEntry} (h : (k, es) ∈ entryMap pas) :
    es = ((allDevEntries pas).filter fun kv => kv.1 = k).map Prod.snd := by
  rw [← entryMap_bucket]
  exact (bucketOf_eq_of_mem (entryMap_keys_nodup pas) h).symm

theorem countClass_eq (pas : List PageAnalysis) (c : String) :
    ((allDevEntries pas).countP fun kv => decide (kv.1 = c)) =
      (pas.map fun p => p.devices.countP fun d => decide (devClass d = c)).sum := by
  induction pas with
  | nil => rfl
  | cons p rest ih =>
    simp only [allDevEntries, List.flatMap_cons, List.countP_append, List.map_cons,
      List.sum_cons, List.countP_map] at *
    rw [ih]
    rfl

theorem foldl_min_le (cs : List ℚ) : ∀ c : ℚ, cs.foldl min c ≤ c := by
  induction cs with
  | nil => intro c; simp
  | cons d cs ih =>
    intro c
    calc (d :: cs).foldl min c = cs.foldl min (min c d) := rfl
    _ ≤ min c d := ih (min c d)
    _ ≤ c := min_le_left c d

theorem le_foldl_max (cs : List ℚ) : ∀ c : ℚ, c ≤ cs.foldl max c := by
  induction cs with
  | nil => intro c; simp
  | cons d cs ih =>
    intro c
    calc c ≤ max c d := le_max_left c d
    _ ≤ cs.foldl max (max c d) := ih (max c d)
    _ = (d :: cs).foldl max c := rfl

theorem foldl_min_mul_le_sum (cs : List ℚ) :
    ∀ c : ℚ, (cs.foldl min c) * (cs.length + 1 : ℚ) ≤ c + cs.sum := by
  induction cs with
  | nil => intro c; simp
  | cons d cs ih =>
    intro c
    have h1 := ih (min c d)
    have h2 := foldl_min_le cs (min c d)
    have h3 : min c d ≤ c := min_le_left c d
    have h4 : min c d ≤ d := min_le_right c d
    have hfold : (d :: cs).foldl min c = cs.foldl min (min c d) := rfl
    have hsum : (d :: cs).sum = d + cs.sum := List.sum_cons
    have hlen : ((d :: cs).length : ℚ) = (cs.length : ℚ) + 1 := by
      push_cast [List.length_cons]
      ring
    rw [hfold, hsum, hlen]
    have hexp : (cs.foldl min (min c d)) * ((cs.length : ℚ) + 1 + 1) =
        (cs.foldl min (min c d)) * ((cs.length : ℚ) + 1) +
          cs.foldl min (min c d) := by ring
    rw [hexp]
    linarith

theorem sum_le_foldl_max_mul (cs : List ℚ) :
    ∀ c : ℚ, c + cs.sum ≤ (cs.foldl max c) * (cs.length + 1 : ℚ) := by
  induction cs with
  | nil => intro c; simp
  | cons d cs ih =>
    intro c
    have h1 := ih (max c d)
    have h2 := le_foldl_max cs (max c d)
    have h3 : c ≤ max c d := le_max_left c d
    have h4 : d ≤ max c d := le_max_right c d
    have hfold : (d :: cs).foldl max c = cs.foldl max (max c d) := rfl
    have hsum : (d :: cs).sum = d + cs.sum := List.sum_cons
    have hlen : ((d :: cs).length : ℚ) = (cs.length : ℚ) + 1 := by
      push_cast [List.length_cons]
      ring
    rw [hfold, hsum, hlen]
    have hexp : (cs.foldl max (max c d)) * ((cs.length : ℚ) + 1 + 1) =
        (cs.foldl max (max c d)) * ((cs.length : ℚ) + 1) +
          cs.foldl max (max c d) := by ring
    rw [hexp]
    linarith

theorem insertUniq_nodup {α : Type} [DecidableEq α] {l : List α}
    (h : l.Nodup) (a : α) : (insertUniq l a).Nodup := by
  unfold insertUniq
  by_cases hmem : a ∈ l
  · simpa [hmem] using h
  · simp [hmem, List.nodup_append, h]

theorem setOfList_nodup {α : Type} [DecidableEq α] (l : List α) :
    (setOfList l).Nodup := by
  suffices h : ∀ acc : List α, acc.Nodup → (l.foldl insertUniq acc).Nodup from
    h [] (by simp)
  induction l with
  | nil => intro acc hacc; exact hacc
  | cons a l ih =>
    intro acc hacc
    exact ih _ (insertUniq_nodup hacc a)

theorem aggregate_mem_iff (pas : List PageAnalysis) (g : DeviceGroup) :
    g ∈ aggregateDevicesByType pas ↔ ∃ kv ∈ entryMap pas, toGroup kv = g := by
  unfold aggregateDevicesByType
  rw [(List.perm_insertionSort groupLE _).mem_iff, List.mem_map]

/-- C7: the aggregated device report has exactly one group per device
class (display name) — group names are duplicate-free and cover exactly
the classes occurring on the analyzed pages; each group's count is the
total number of detections of its class across all pages; and the
groups are sorted by count descending with ties broken by ascending
display name. -/
theorem aggregate_report_claim (pas : List PageAnalysis) :
    ((aggregateDevicesByType pas).map DeviceGroup.deviceType).Nodup
    ∧ (∀ c : String, (∃ p ∈ pas, ∃ d ∈ p.devices, devClass d = c) ↔
        ∃ g ∈ aggregateDevicesByType pas, g.deviceType = c)
    ∧ (∀ g ∈ aggregateDevicesByType pas,
        g.count =
          (pas.map fun p =>
            p.devices.countP fun d => decide (devClass d = g.deviceType)).sum)
    ∧ List.Sorted groupLE (aggregateDevicesByType pas) := by
  refine ⟨?_, fun c => ?_, fun g hg => ?_, List.sorted_insertionSort groupLE _⟩
  · have hperm : List.Perm
        ((aggregateDevicesByType pas).map DeviceGroup.deviceType)
        (((entryMap pas).map toGroup).map DeviceGroup.deviceType) :=
      (List.perm_insertionSort groupLE _).map _
    have heq : ((entryMap pas).map toGroup).map DeviceGroup.deviceType =
        (entryMap pas).map Prod.fst := by
      rw [List.map_map]; rfl
    exact hperm.symm.nodup (heq ▸ entryMap_keys_nodup pas)
  · have hsrc : (∃ p ∈ pas, ∃ d ∈ p.devices, devClass d = c) ↔
        ∃ kv ∈ allDevEntries pas, kv.1 = c := by
      simp only [allDevEntries, List.mem_flatMap, List.mem_map]
      constructor
      · rintro ⟨p, hp, d, hd, rfl⟩
        exact ⟨(devClass d, entryOf p d), ⟨p, hp, d, hd, rfl⟩, rfl⟩
      · rintro ⟨kv, ⟨p, hp, d, hd, rfl⟩, rfl⟩
        exact ⟨p, hp, d, hd, rfl⟩
    rw [hsrc, ← entryMap_mem_keys]
    constructor
    · intro hk
      obtain ⟨kv, hkv, hfst⟩ := List.mem_map.mp hk
      exact ⟨toGroup kv, (aggregate_mem_iff pas _).mpr ⟨kv, hkv, rfl⟩, hfst⟩
    · rintro ⟨g, hg, rfl⟩
      obtain ⟨kv, hkv, rfl⟩ := (aggregate_mem_iff pas g).mp hg
      exact List.mem_map.mpr ⟨kv, hkv, rfl⟩
  · obtain ⟨kv, hkv, rfl⟩ := (aggregate_mem_iff pas g).mp hg
    obtain ⟨k, es⟩ := kv
    have hsnd := entryMap_snd_eq pas hkv
    have hcount : (toGroup (k, es)).count = es.length := rfl
    have hdt : (toGroup (k, es)).deviceType = k := rfl
    rw [hcount, hdt, hsnd, List.length_map, ← List.countP_eq_length_filter,
      ← countClass_eq]

/-- C9: the group counts of `aggregateDevicesByType` sum to the total
number of device entries across all page analyses; in every group with
at least one numeric confidence the average lies between the minimum
and maximum confidence; and every group's page list is duplicate-free
and sorted ascending. -/
theorem aggregate_invariants_claim (pas : List PageAnalysis) :
    ((aggregateDevicesByType pas).map DeviceGroup.count).sum =
        (pas.map fun p => p.devices.length).sum
    ∧ (∀ g ∈ aggregateDevicesByType pas, ∀ a : ℚ, g.avgConfidence = some a →
        ∃ mn mx : ℚ, g.minConfidence = some mn ∧ g.maxConfidence = some mx ∧
          mn ≤ a ∧ a ≤ mx)
    ∧ (∀ g ∈ aggregateDevicesByType pas,
        g.pages.Nodup ∧ List.Sorted (· ≤ ·) g.pages) := by
  refine ⟨?_, fun g hg a ha => ?_, fun g hg => ?_⟩
  · have hperm : List.Perm
        ((aggregateDevicesByType pas).map DeviceGroup.count)
        (((entryMap pas).map toGroup).map DeviceGroup.count) :=
      (List.perm_insertionSort groupLE _).map _
    rw [hperm.sum_eq, List.map_map]
    have hmm : ((entryMap pas).map (DeviceGroup.count ∘ toGroup)).sum =
        ((entryMap pas).map fun kv => kv.2.length).sum := rfl
    rw [hmm, entryMap_sum]
    simp [allDevEntries, List.length_flatMap, Function.comp_def, List.length_map]
  · obtain ⟨kv, hkv, rfl⟩ := (aggregate_mem_iff pas g).mp hg
    rcases hconfs : kv.2.filterMap DevEntry.confidence with _ | ⟨c, cs⟩
    · have : (toGroup kv).avgConfidence = none := by
        simp [toGroup, hconfs]
      rw [this] at ha
      cases ha
    · have hmin : (toGroup kv).minConfidence = some (cs.foldl min c) := by
        simp [toGroup, hconfs]
      have hmax : (toGroup kv).maxConfidence = some (cs.foldl max c) := by
        simp [toGroup, hconfs]
      have havg : (toGroup kv).avgConfidence =
          some ((c :: cs).sum / ((c :: cs).length : ℚ)) := by
        simp [toGroup, hconfs]
      rw [havg] at ha
      have ha' : a = (c :: cs).sum / ((c :: cs).length : ℚ) :=
        (Option.some.injEq .. ▸ ha).symm
      have hlen : ((c :: cs).length : ℚ) = (cs.length : ℚ) + 1 := by
        push_cast [List.length_cons]
        ring
      have hpos : (0 : ℚ) < ((c :: cs).length : ℚ) := by
        rw [hlen]
        positivity
      refine ⟨cs.foldl min c, cs.foldl max c, hmin, hmax, ?_, ?_⟩
      · rw [ha', le_div_iff₀ hpos, hlen]
        have := foldl_min_mul_le_sum cs c
        simpa [List.sum_cons] using this
      · rw [ha', div_le_iff₀ hpos, hlen]
        have := sum_le_foldl_max_mul cs c
        simpa [List.sum_cons] using this
  · obtain ⟨kv, hkv, rfl⟩ := (aggregate_mem_iff pas g).mp hg
    have hpages : (toGroup kv).pages =
        (setOfList (kv.2.filterMap DevEntry.page)).insertionSort (· ≤ ·) := rfl
    constructor
    · rw [hpages]
      exact (List.perm_insertionSort _ _).symm.nodup (setOfList_nodup _)
    · rw [hpages]
      exact List.sorted_insertionSort _ _

/-- The sample page for the aggregate witnesses: one smoke detector at
confidence 1/2. -/
def exPage : PageAnalysis := ⟨some 1, [⟨"smoke", some (1/2), none, none⟩]⟩

/-- Witness for `aggregate_invariants_claim`: for the single
smoke-detector page the group's average confidence 1/2 lies between its
minimum and maximum. -/
theorem aggregate_invariants_claim_witness :
    ∃ g ∈ aggregateDevicesByType [exPage],
      g.avgConfidence = some (1/2) ∧
        ∃ mn mx : ℚ, g.minConfidence = some mn ∧ g.maxConfidence = some mx ∧
          mn ≤ 1/2 ∧ (1/2 : ℚ) ≤ mx := by
  have hmap : entryMap [exPage] =
      [(devClass ⟨"smoke", some (1/2), none, none⟩,
        [entryOf exPage ⟨"smoke", some (1/2), none, none⟩])] := rfl
  have hmem : toGroup (devClass ⟨"smoke", some (1/2), none, none⟩,
        [entryOf exPage ⟨"smoke", some (1/2), none, none⟩]) ∈
      aggregateDevicesByType [exPage] :=
    (aggregate_mem_iff [exPage] _).mpr
      ⟨_, hmap ▸ List.mem_singleton_self _, rfl⟩
  have havg : (toGroup (devClass ⟨"smoke", some (1/2), none, none⟩,
        [entryOf exPage ⟨"smoke", some (1/2), none, none⟩])).avgConfidence =
      some (1/2) := by
    norm_num [toGroup, entryOf, exPage, List.filterMap_cons, List.sum_cons]
  exact ⟨_, hmem, havg,
    (aggregate_invariants_claim [exPage]).2.1 _ hmem (1/2) havg⟩

/-- Witness for `aggregate_report_claim`: on a two-page sample, the
class "Smoke Detector" occurs and therefore has a group. -/
theorem aggregate_report_claim_witness :
    ∃ g ∈ aggregateDevicesByType
        [⟨some 2, [⟨"smoke", some (9/10), none, none⟩]⟩,
         ⟨some 1, [⟨"pull", some (8/10), none, none⟩]⟩],
      g.deviceType = devClass ⟨"smoke", some (9/10), none, none⟩ :=
  ((aggregate_report_claim
      [⟨some 2, [⟨"smoke", some (9/10), none, none⟩]⟩,
       ⟨some 1, [⟨"pull", some (8/10), none, none⟩]⟩]).2.1
    (devClass ⟨"smoke", some (9/10), none, none⟩)).mp
    ⟨⟨some 2, [⟨"smoke", some (9/10), none, none⟩]⟩, by simp,
      ⟨"smoke", some (9/10), none, none⟩, by simp, rfl⟩

end PlanroomGenius
